import Mathlib

/-!
Verification of the Cell / moments binding layer of horton (src/horton/cext.pyx).

The Python/Cython code in `cext.pyx` is embedded shallowly:

* doubles become exact rationals `ℚ` (for the `update_rvecs` / range machinery,
  whose claims are exact linear algebra) or reals `ℝ` (for `from_parameters`,
  which calls the transcendental `np.cos`, `np.sin`, `np.sqrt`, `np.pi`);
* numpy buffers become either a raw `Buf` (an untyped 2-d buffer with a shape,
  for shape-validation claims) or typed matrices/lists;
* `np.linalg.svd` is an external library routine: it is a parameter `svd` of
  the embedding, and theorems that need its defining properties (orthogonality,
  exact reconstruction) take them as hypotheses;
* a Python `raise` becomes `Except.error`; the mutation performed by a
  successful `update_rvecs` becomes the returned `CellState`, so a failing call
  produces no new state (this is the atomicity of the original method: it
  raises before touching `self._this`).
-/

open Matrix

/-- Error conditions raised by the code in `cext.pyx`.  The first five model
`TypeError`/`ValueError` with the distinct messages of the source; the spec's
taxonomy groups all but `notUnitCell` under `InvalidArgument` and calls
`notUnitCell` (the `u_c < 0` raise of `from_parameters`) the geometry error. -/
inductive CellErr where
  | badShape
  | badCounts
  | tooManyLengths
  | badLength
  | badAngle
  | notUnitCell
  | bufferTooSmall
  deriving DecidableEq, Repr

/-- The spec's `InvalidArgument` class: every error of `cext.pyx` except the
geometry error of `from_parameters`. -/
def CellErr.isInvalidArg : CellErr → Prop
  | .notUnitCell => False
  | _ => True

/-- A raw 2-d numpy buffer of doubles: a shape `(rows, cols)` plus its
entries (doubles are modelled as exact rationals). -/
structure Buf where
  rows : ℕ
  cols : ℕ
  data : ℕ → ℕ → ℚ

/-- The size of a numpy buffer (`rvecs.size` in `update_rvecs`). -/
def Buf.size (b : Buf) : ℕ := b.rows * b.cols

/-- Result triple of `np.linalg.svd(rvecs, full_matrices=True)` for an
`nvec × 3` input with `nvec ≤ 3`: `Up` is meaningful on its top-left
`nvec × nvec` block, `Sp` on its first `nvec` entries, `Vt` is a full `3 × 3`
matrix. -/
structure SvdT where
  Up : Matrix (Fin 3) (Fin 3) ℚ
  Sp : Fin 3 → ℚ
  Vt : Matrix (Fin 3) (Fin 3) ℚ

/-- The vector `S` assembled in `update_rvecs`:
`S = np.ones(3); S[:nvec] = Sp`. -/
def svdS (d : SvdT) (nvec : ℕ) : Fin 3 → ℚ :=
  fun j => if (j : ℕ) < nvec then d.Sp j else 1

/-- The matrix `U` assembled in `update_rvecs`:
`U = np.identity(3); U[:nvec,:nvec] = Up`. -/
def svdU (d : SvdT) (nvec : ℕ) : Matrix (Fin 3) (Fin 3) ℚ :=
  Matrix.of fun i j =>
    if (i : ℕ) < nvec ∧ (j : ℕ) < nvec then d.Up i j
    else (1 : Matrix (Fin 3) (Fin 3) ℚ) i j

/-- `np.dot(U*S, Vt)` of `update_rvecs` (numpy's `U*S` scales column `j` of `U`
by `S[j]`): the rank-3 completion of the input lattice vectors. -/
def svdRecon (d : SvdT) (nvec : ℕ) : Matrix (Fin 3) (Fin 3) ℚ :=
  (Matrix.of fun i j => svdU d nvec i j * svdS d nvec j) * d.Vt

/-- `np.dot(U/S, Vt)` of `update_rvecs`: the reciprocal matrix. -/
def svdGv (d : SvdT) (nvec : ℕ) : Matrix (Fin 3) (Fin 3) ℚ :=
  (Matrix.of fun i j => svdU d nvec i j / svdS d nvec j) * d.Vt

/-- The state held by a `Cell`: the completed `3 × 3` real-space matrix, the
`3 × 3` reciprocal matrix and the number of given cell vectors. -/
structure CellState where
  rvecs : Matrix (Fin 3) (Fin 3) ℚ
  gvecs : Matrix (Fin 3) (Fin 3) ℚ
  nvec : ℕ

/-- `Cell.update_rvecs` of `cext.pyx`.  `svd` is the external
`np.linalg.svd`; `_self` is the state being replaced (the method overwrites it
completely on success and raises before touching it on failure).  `none`
models the Python argument `rvecs=None`. -/
def updateRvecs (svd : Buf → SvdT) (_self : CellState) (rvecsArg : Option Buf) :
    Except CellErr CellState :=
  match rvecsArg with
  | none => .ok ⟨1, 1, 0⟩
  | some b =>
    if b.size = 0 then .ok ⟨1, 1, 0⟩
    else if 3 < b.rows ∨ b.cols ≠ 3 then .error .badShape
    else
      let nvec := b.rows
      let d := svd b
      let modRvecs : Matrix (Fin 3) (Fin 3) ℚ :=
        Matrix.of fun i j =>
          if (i : ℕ) < nvec then b.data i j else svdRecon d nvec i j
      .ok ⟨modRvecs, svdGv d nvec, nvec⟩

/-- The state of the cell after calling `update_rvecs`: the new state on
success, the unchanged old state when the call raised. -/
def updateRvecsApply (svd : Buf → SvdT) (self : CellState) (rvecsArg : Option Buf) :
    CellState :=
  match updateRvecs svd self rvecsArg with
  | .ok c => c
  | .error _ => self

/-- The `rvecs` property of `Cell`: a fresh `(nvec, 3)` array holding the
first `nvec` rows of the stored real-space matrix (the C++ `copy_rvecs` is not
under src; per the spec it copies the stored vectors). -/
def CellState.rvecsOut (c : CellState) : List (Fin 3 → ℚ) :=
  (List.range c.nvec).map fun i => fun j => if h : i < 3 then c.rvecs ⟨i, h⟩ j else 0

/-- The `gvecs` property of `Cell`: the first `nvec` rows of the stored
reciprocal matrix. -/
def CellState.gvecsOut (c : CellState) : List (Fin 3 → ℚ) :=
  (List.range c.nvec).map fun i => fun j => if h : i < 3 then c.gvecs ⟨i, h⟩ j else 0

/-- Dot product of two 3-vectors of rationals. -/
def dotQ (u v : Fin 3 → ℚ) : ℚ := ∑ i, u i * v i

/-- Modelled from the spec: the C++ `Cell::get_volume` is not under src.  Per
spec §3 the volume is the generalized length/area/volume of the
`nvec`-dimensional parallelepiped spanned by the given vectors, and `1` for
`nvec == 0`. -/
noncomputable def CellState.volume (c : CellState) : ℝ :=
  match c.nvec with
  | 0 => 1
  | 1 => Real.sqrt ((dotQ (c.rvecs 0) (c.rvecs 0) : ℚ) : ℝ)
  | 2 => Real.sqrt
      (((dotQ (c.rvecs 0) (c.rvecs 0) * dotQ (c.rvecs 1) (c.rvecs 1)
        - dotQ (c.rvecs 0) (c.rvecs 1) ^ 2 : ℚ) : ℝ))
  | _ => |((c.rvecs.det : ℚ) : ℝ)|

/-- Trivial stand-ins used by concrete witnesses: an arbitrary svd oracle and
an arbitrary pre-existing cell state. -/
def svdTriv : Buf → SvdT := fun _ => ⟨1, fun _ => 1, 1⟩

/-- An arbitrary pre-existing cell (the non-periodic cell). -/
def cellTriv : CellState := ⟨1, 1, 0⟩

/-- A concrete valid `(2, 3)` lattice-vector buffer. -/
def bufW1 : Buf := ⟨2, 3, fun i j => ((i * 3 + j : ℕ) : ℚ)⟩

/-- A `(4, 3)` buffer: one row too many. -/
def bufBadRows : Buf := ⟨4, 3, fun _ _ => 0⟩

/-- A `(4, 0)` buffer: more than 3 rows, but empty. -/
def bufEmptyTall : Buf := ⟨4, 0, fun _ _ => 0⟩

/-- C1: for every valid input of shape `(nvec, 3)` with `nvec ≤ 3`, after
`update_rvecs` (hence also after `Cell.__init__`, which just calls it) the
first `nvec` rows of the stored real-space matrix — and the array returned by
the `rvecs` property — are exactly the supplied lattice vectors, whatever the
svd returned: line `mod_rvecs[:nvec] = rvecs` of `cext.pyx` overwrites them
byte-identically; only rows `nvec..2` are synthetic. -/
theorem cell_update_rvecs_preserves_input_rows
    (svd : Buf → SvdT) (self : CellState) (b : Buf)
    (hcols : b.cols = 3) (hrows : b.rows ≤ 3) :
    ∃ c', updateRvecs svd self (some b) = .ok c' ∧ c'.nvec = b.rows ∧
      (∀ i : Fin 3, (i : ℕ) < b.rows → ∀ j : Fin 3, c'.rvecs i j = b.data i j) ∧
      c'.rvecsOut = (List.range b.rows).map fun i => fun j : Fin 3 => b.data i (j : ℕ) := by
  rcases Nat.eq_zero_or_pos b.rows with h0 | hpos
  · refine ⟨⟨1, 1, 0⟩, ?_, ?_, ?_, ?_⟩
    · simp [updateRvecs, Buf.size, h0]
    · simp [h0]
    · intro i hi; omega
    · simp [CellState.rvecsOut, h0]
  · have hsz : b.size ≠ 0 := by
      simp only [Buf.size, hcols]; omega
    have hshape : ¬(3 < b.rows ∨ b.cols ≠ 3) := by
      push_neg; exact ⟨by omega, hcols⟩
    refine ⟨⟨Matrix.of fun i j =>
        if (i : ℕ) < b.rows then b.data i j else svdRecon (svd b) b.rows i j,
      svdGv (svd b) b.rows, b.rows⟩, ?_, rfl, ?_, ?_⟩
    · simp only [updateRvecs]
      rw [if_neg hsz, if_neg hshape]
    · intro i hi j
      simp [Matrix.of_apply, hi]
    · unfold CellState.rvecsOut
      apply List.map_congr_left
      intro i hi
      have hilt : i < b.rows := List.mem_range.mp hi
      have hi3 : i < 3 := lt_of_lt_of_le hilt hrows
      funext j
      rw [dif_pos hi3]
      simp [Matrix.of_apply, hilt]

/-- C1 witness: the concrete `(2, 3)` buffer `bufW1` satisfies the
hypotheses and the conclusion. -/
theorem cell_update_rvecs_preserves_input_rows_witness :
    bufW1.cols = 3 ∧ bufW1.rows ≤ 3 ∧
      (∃ c', updateRvecs svdTriv cellTriv (some bufW1) = .ok c' ∧
        c'.nvec = bufW1.rows ∧
        (∀ i : Fin 3, (i : ℕ) < bufW1.rows → ∀ j : Fin 3, c'.rvecs i j = bufW1.data i j) ∧
        c'.rvecsOut = (List.range bufW1.rows).map fun i => fun j : Fin 3 => bufW1.data i (j : ℕ)) :=
  ⟨rfl, by decide,
    cell_update_rvecs_preserves_input_rows svdTriv cellTriv bufW1 rfl (by decide)⟩

/-- C4 counterexample: the claim says `update_rvecs` must fail for every input
with more than 3 rows, but a `(4, 0)` buffer has 4 rows and empty size, so the
`rvecs.size == 0` branch of `cext.pyx` accepts it and resets the cell to the
non-periodic state instead of raising. -/
theorem update_rvecs_empty_shape_counterexample :
    3 < bufEmptyTall.rows ∧
      updateRvecs svdTriv cellTriv (some bufEmptyTall) =
        .ok (⟨1, 1, 0⟩ : CellState) :=
  ⟨by decide, rfl⟩

/-- C4 amended: `update_rvecs` fails (with the shape `TypeError`, the spec's
`InvalidArgument`) for every input of nonzero size with more than 3 rows or a
column count other than 3, and the failing call is atomic: it returns an error
produced before any state is built, so the cell state is unchanged. -/
theorem update_rvecs_invalid_shape_error_atomic
    (svd : Buf → SvdT) (self : CellState) (b : Buf)
    (hsz : b.size ≠ 0) (hshape : 3 < b.rows ∨ b.cols ≠ 3) :
    updateRvecs svd self (some b) = .error .badShape ∧
      updateRvecsApply svd self (some b) = self := by
  have h : updateRvecs svd self (some b) = .error .badShape := by
    simp only [updateRvecs]
    rw [if_neg hsz, if_pos hshape]
  exact ⟨h, by simp [updateRvecsApply, h]⟩

/-- C4 witness: a `(4, 3)` buffer of zeros fails and leaves the cell alone. -/
theorem update_rvecs_invalid_shape_error_atomic_witness :
    bufBadRows.size ≠ 0 ∧ (3 < bufBadRows.rows ∨ bufBadRows.cols ≠ 3) ∧
      updateRvecs svdTriv cellTriv (some bufBadRows) = .error .badShape ∧
      updateRvecsApply svdTriv cellTriv (some bufBadRows) = cellTriv :=
  ⟨by decide, Or.inl (by decide),
    update_rvecs_invalid_shape_error_atomic svdTriv cellTriv bufBadRows
      (by decide) (Or.inl (by decide))⟩

/-- C8: a cell built from `None` or from an empty lattice-vector array has
`nvec = 0`, both stored matrices equal to the `3 × 3` identity, and volume `1`
(the volume case for `nvec = 0` is modelled from the spec, the C++ getter not
being under src). -/
theorem cell_nvec_zero_identity_volume_one
    (svd : Buf → SvdT) (self : CellState) (inputArg : Option Buf)
    (h : inputArg = none ∨ ∃ b, inputArg = some b ∧ b.size = 0) :
    ∃ c', updateRvecs svd self inputArg = .ok c' ∧ c'.nvec = 0 ∧
      c'.rvecs = 1 ∧ c'.gvecs = 1 ∧ c'.volume = 1 := by
  have hok : updateRvecs svd self inputArg = .ok (⟨1, 1, 0⟩ : CellState) := by
    rcases h with h | ⟨b, rfl, hb⟩
    · rw [h]; rfl
    · simp only [updateRvecs]
      rw [if_pos hb]
  exact ⟨⟨1, 1, 0⟩, hok, rfl, rfl, rfl, rfl⟩

/-- C8 witness: constructing from `None`. -/
theorem cell_nvec_zero_identity_volume_one_witness :
    (none = (none : Option Buf) ∨ ∃ b, (none : Option Buf) = some b ∧ b.size = 0) ∧
      ∃ c', updateRvecs svdTriv cellTriv none = .ok c' ∧ c'.nvec = 0 ∧
        c'.rvecs = 1 ∧ c'.gvecs = 1 ∧ c'.volume = 1 :=
  ⟨Or.inl rfl,
    cell_nvec_zero_identity_volume_one svdTriv cellTriv none (Or.inl rfl)⟩

/-- C2: whenever the svd triple has the properties numpy guarantees for a
full-rank-completable input — assembled `U` orthogonal, `Vt` orthogonal,
all retained singular values nonzero, and exact reconstruction of the input
rows — the reciprocal matrix computed by `update_rvecs` is the dual basis of
the full completed real-space matrix: `gvecs * rvecsᵀ = 1` for all three rows. -/
theorem cell_gvecs_dual_basis
    (svd : Buf → SvdT) (self : CellState) (b : Buf)
    (hcols : b.cols = 3) (hrows : b.rows ≤ 3)
    (hU : svdU (svd b) b.rows * (svdU (svd b) b.rows)ᵀ = 1)
    (hV : (svd b).Vt * ((svd b).Vt)ᵀ = 1)
    (hS : ∀ j, svdS (svd b) b.rows j ≠ 0)
    (hrecon : ∀ i : Fin 3, (i : ℕ) < b.rows → ∀ j : Fin 3,
      svdRecon (svd b) b.rows i j = b.data i j) :
    ∃ c', updateRvecs svd self (some b) = .ok c' ∧
      c'.gvecs * (c'.rvecs)ᵀ = 1 := by
  rcases Nat.eq_zero_or_pos b.rows with h0 | hpos
  · refine ⟨⟨1, 1, 0⟩, ?_, ?_⟩
    · simp [updateRvecs, Buf.size, h0]
    · simp
  · have hsz : b.size ≠ 0 := by simp only [Buf.size, hcols]; omega
    have hshape : ¬(3 < b.rows ∨ b.cols ≠ 3) := by
      push_neg; exact ⟨by omega, hcols⟩
    have hmod : (Matrix.of (fun (i j : Fin 3) =>
        if (i : ℕ) < b.rows then b.data i j else svdRecon (svd b) b.rows i j)) =
        svdRecon (svd b) b.rows := by
      ext i j
      simp only [Matrix.of_apply]
      split
      · exact (hrecon i (by assumption) j).symm
      · rfl
    refine ⟨⟨Matrix.of (fun (i j : Fin 3) =>
        if (i : ℕ) < b.rows then b.data i j else svdRecon (svd b) b.rows i j),
      svdGv (svd b) b.rows, b.rows⟩, ?_, ?_⟩
    · simp only [updateRvecs]
      rw [if_neg hsz, if_neg hshape]
    · show svdGv (svd b) b.rows * (Matrix.of (fun (i j : Fin 3) =>
        if (i : ℕ) < b.rows then b.data i j else svdRecon (svd b) b.rows i j))ᵀ = 1
      rw [hmod]
      unfold svdGv svdRecon
      rw [Matrix.transpose_mul, Matrix.mul_assoc,
        ← Matrix.mul_assoc (svd b).Vt ((svd b).Vt)ᵀ, hV, Matrix.one_mul]
      have hBA : (Matrix.of fun i j => svdU (svd b) b.rows i j / svdS (svd b) b.rows j) *
          (Matrix.of fun i j => svdU (svd b) b.rows i j * svdS (svd b) b.rows j)ᵀ =
          svdU (svd b) b.rows * (svdU (svd b) b.rows)ᵀ := by
        ext i k
        rw [Matrix.mul_apply, Matrix.mul_apply]
        apply Finset.sum_congr rfl
        intro j _
        rw [Matrix.transpose_apply, Matrix.transpose_apply]
        simp only [Matrix.of_apply]
        have hSj := hS j
        field_simp
        ring
      rw [hBA, hU]

/-- A concrete diagonal `(3, 3)` lattice `diag(2, 3, 4)`. -/
def bufDiag : Buf := ⟨3, 3, fun i j => if i = j then ((2 + i : ℕ) : ℚ) else 0⟩

/-- An svd oracle that is exact for `bufDiag`: `Up = 1`, `Sp = (2, 3, 4)`,
`Vt = 1`. -/
def svdDiag : Buf → SvdT := fun _ => ⟨1, ![2, 3, 4], 1⟩

/-- The assembled `U` for the diagonal witness is the identity. -/
theorem svdU_diag_eq_one : svdU (svdDiag bufDiag) bufDiag.rows = 1 := by
  ext i j
  simp [svdU, svdDiag, bufDiag, i.isLt, j.isLt]

/-- Orthogonality of the assembled `U` for the diagonal witness. -/
theorem svdU_diag_orth :
    svdU (svdDiag bufDiag) bufDiag.rows * (svdU (svdDiag bufDiag) bufDiag.rows)ᵀ = 1 := by
  rw [svdU_diag_eq_one]
  simp

/-- Orthogonality of `Vt` for the diagonal witness. -/
theorem svdVt_diag_orth :
    (svdDiag bufDiag).Vt * ((svdDiag bufDiag).Vt)ᵀ = 1 := by
  show (1 : Matrix (Fin 3) (Fin 3) ℚ) * (1 : Matrix (Fin 3) (Fin 3) ℚ)ᵀ = 1
  simp

/-- The retained singular values of the diagonal witness are nonzero. -/
theorem svdS_diag_ne_zero : ∀ j, svdS (svdDiag bufDiag) bufDiag.rows j ≠ 0 := by
  intro j
  fin_cases j <;> simp [svdS, svdDiag, bufDiag]

/-- The svd triple of the diagonal witness reconstructs the input exactly. -/
theorem svdRecon_diag : ∀ i : Fin 3, (i : ℕ) < bufDiag.rows → ∀ j : Fin 3,
    svdRecon (svdDiag bufDiag) bufDiag.rows i j = bufDiag.data i j := by
  intro i _ j
  show ((Matrix.of fun i j =>
    svdU (svdDiag bufDiag) bufDiag.rows i j * svdS (svdDiag bufDiag) bufDiag.rows j) *
    (svdDiag bufDiag).Vt) i j = bufDiag.data i j
  have hVt : (svdDiag bufDiag).Vt = 1 := rfl
  rw [hVt, Matrix.mul_one, svdU_diag_eq_one]
  fin_cases i <;> fin_cases j <;>
    simp [svdS, svdDiag, bufDiag, Matrix.one_apply] <;> norm_num

/-- C2 witness: the diagonal lattice with its exact svd triple. -/
theorem cell_gvecs_dual_basis_witness :
    bufDiag.cols = 3 ∧ bufDiag.rows ≤ 3 ∧
      svdU (svdDiag bufDiag) bufDiag.rows * (svdU (svdDiag bufDiag) bufDiag.rows)ᵀ = 1 ∧
      (svdDiag bufDiag).Vt * ((svdDiag bufDiag).Vt)ᵀ = 1 ∧
      (∀ j, svdS (svdDiag bufDiag) bufDiag.rows j ≠ 0) ∧
      (∀ i : Fin 3, (i : ℕ) < bufDiag.rows → ∀ j : Fin 3,
        svdRecon (svdDiag bufDiag) bufDiag.rows i j = bufDiag.data i j) ∧
      ∃ c', updateRvecs svdDiag cellTriv (some bufDiag) = .ok c' ∧
        c'.gvecs * (c'.rvecs)ᵀ = 1 := by
  refine ⟨rfl, by decide, svdU_diag_orth, svdVt_diag_orth, svdS_diag_ne_zero,
    svdRecon_diag, ?_⟩
  exact cell_gvecs_dual_basis svdDiag cellTriv bufDiag rfl (by decide)
    svdU_diag_orth svdVt_diag_orth svdS_diag_ne_zero svdRecon_diag

/-- Modelled from the spec: `Cell::add_rvec` (cell.cpp, not under src) adds the
lattice translation `Σ r_j · rvec_j` to a Cartesian delta. -/
def addRvec (rvecs : Fin 3 → Fin 3 → ℚ) (delta : Fin 3 → ℚ) (r : Fin 3 → ℤ) :
    Fin 3 → ℚ :=
  fun k => delta k + ∑ j, (r j : ℚ) * rvecs j k

/-- Modelled from the spec: `Cell::set_ranges_rcut` (cell.cpp, not under src).
Per spec §4.1, the number of whole-cell steps needed to escape the cutoff
sphere along axis `i` is `ceil((rcut + |component of delta along axis i|) /
spacing_i)`, and `[begin_i, end_i)` is the symmetric range of that many steps
around the untranslated position.  The component of `delta` along axis `i` is
its fractional coordinate `delta · g_i` times the spacing (the perpendicular
inter-plane distance `1/|g_i|`). -/
def rangesRcut (gvecs : Fin 3 → Fin 3 → ℚ) (spac : Fin 3 → ℚ) (delta : Fin 3 → ℚ)
    (rcut : ℚ) : Fin 3 → ℤ × ℤ :=
  fun i =>
    let comp := dotQ delta (gvecs i) * spac i
    let n := ⌈(rcut + |comp|) / spac i⌉
    (-n, n + 1)

/-- C3: soundness of `get_ranges_rcut` for a completed cell.  Hypotheses: the
spacings are positive and equal to `1/|g_i|` (stated square-free as
`s_i² · (g_i · g_i) = 1`), and the real/reciprocal rows are mutually dual
(which holds for every Cell by the C2 invariant).  Conclusion: every integer
translation `r` for which `delta + Σ r_j · rvec_j` lies within `rcut` of the
origin has `r_i` inside the returned `[begin_i, end_i)` on every axis.  A cell
with fewer than 3 active axes is the special case where the inactive `r_i`
are zero. -/
theorem get_ranges_rcut_sound
    (rvecs gvecs : Fin 3 → Fin 3 → ℚ) (spac : Fin 3 → ℚ) (delta : Fin 3 → ℚ)
    (rcut : ℚ) (r : Fin 3 → ℤ)
    (hs : ∀ i, 0 < spac i)
    (hsg : ∀ i, spac i ^ 2 * dotQ (gvecs i) (gvecs i) = 1)
    (hdual : ∀ i j, dotQ (rvecs j) (gvecs i) = if i = j then 1 else 0)
    (hrcut : 0 ≤ rcut)
    (hin : dotQ (addRvec rvecs delta r) (addRvec rvecs delta r) ≤ rcut ^ 2) :
    ∀ i, (rangesRcut gvecs spac delta rcut i).1 ≤ r i ∧
      r i < (rangesRcut gvecs spac delta rcut i).2 := by
  intro i
  set p := addRvec rvecs delta r with hp
  have hfrac : dotQ p (gvecs i) = dotQ delta (gvecs i) + (r i : ℚ) := by
    have h1 : ∀ k, (delta k + ∑ j, (r j : ℚ) * rvecs j k) * gvecs i k
        = delta k * gvecs i k + ∑ j, (r j : ℚ) * (rvecs j k * gvecs i k) := by
      intro k
      rw [add_mul, Finset.sum_mul]
      congr 1
      exact Finset.sum_congr rfl fun j _ => by ring
    have expand : dotQ p (gvecs i)
        = dotQ delta (gvecs i) + ∑ j, (r j : ℚ) * dotQ (rvecs j) (gvecs i) := by
      simp only [dotQ, hp, addRvec, h1]
      rw [Finset.sum_add_distrib]
      congr 1
      rw [Finset.sum_comm]
      exact Finset.sum_congr rfl fun j _ => (Finset.mul_sum _ _ _).symm
    rw [expand]
    congr 1
    simp [hdual, mul_ite, mul_one, mul_zero, Finset.sum_ite_eq]
  have hCS : dotQ p (gvecs i) ^ 2 ≤ dotQ p p * dotQ (gvecs i) (gvecs i) := by
    have h := Finset.sum_mul_sq_le_sq_mul_sq Finset.univ p (gvecs i)
    simpa [dotQ, pow_two] using h
  have hggnn : 0 ≤ dotQ (gvecs i) (gvecs i) :=
    Finset.sum_nonneg fun k _ => mul_self_nonneg _
  have h3 : dotQ p (gvecs i) ^ 2 ≤ rcut ^ 2 * dotQ (gvecs i) (gvecs i) := by
    have h4 := mul_nonneg (sub_nonneg.mpr hin) hggnn
    nlinarith [hCS]
  have hs2 : (0 : ℚ) < spac i ^ 2 := pow_pos (hs i) 2
  set F := dotQ delta (gvecs i) with hFdef
  set s := spac i with hsdef
  have h5 : ((F + (r i : ℚ)) * s) ^ 2 ≤ rcut ^ 2 := by
    have heq : ((F + (r i : ℚ)) * s) ^ 2 = dotQ p (gvecs i) ^ 2 * s ^ 2 := by
      rw [hfrac]; ring
    calc ((F + (r i : ℚ)) * s) ^ 2 = dotQ p (gvecs i) ^ 2 * s ^ 2 := heq
      _ ≤ (rcut ^ 2 * dotQ (gvecs i) (gvecs i)) * s ^ 2 :=
          mul_le_mul_of_nonneg_right h3 (le_of_lt hs2)
      _ = rcut ^ 2 * (s ^ 2 * dotQ (gvecs i) (gvecs i)) := by ring
      _ = rcut ^ 2 := by rw [hsg i, mul_one]
  have habs : |(F + (r i : ℚ)) * s| ≤ rcut := by
    nlinarith [abs_nonneg ((F + (r i : ℚ)) * s), sq_abs ((F + (r i : ℚ)) * s)]
  set n := ⌈(rcut + |F * s|) / s⌉ with hndef
  have hrange : rangesRcut gvecs spac delta rcut i = (-n, n + 1) := rfl
  have hns : rcut + |F * s| ≤ (n : ℚ) * s := by
    have h6 : (rcut + |F * s|) / s ≤ (n : ℚ) := Int.le_ceil _
    have h7 : (rcut + |F * s|) / s * s ≤ (n : ℚ) * s :=
      mul_le_mul_of_nonneg_right h6 (le_of_lt (hs i))
    calc rcut + |F * s| = (rcut + |F * s|) / s * s :=
          (div_mul_cancel₀ _ (ne_of_gt (hs i))).symm
      _ ≤ (n : ℚ) * s := h7
  have habs2 := abs_le.mp habs
  have hexp : (F + (r i : ℚ)) * s = F * s + (r i : ℚ) * s := by ring
  have haF1 : -|F * s| ≤ F * s := neg_abs_le _
  have haF2 : F * s ≤ |F * s| := le_abs_self _
  have hub : (r i : ℚ) * s ≤ (n : ℚ) * s := by
    have := habs2.2
    rw [hexp] at this
    linarith
  have hlb : -((n : ℚ) * s) ≤ (r i : ℚ) * s := by
    have := habs2.1
    rw [hexp] at this
    linarith
  have hubz : r i ≤ n := by
    have : (r i : ℚ) ≤ (n : ℚ) := le_of_mul_le_mul_right hub (hs i)
    exact_mod_cast this
  have hlbz : -n ≤ r i := by
    have h8 : (-(n : ℚ)) * s ≤ (r i : ℚ) * s := by linarith
    have : (-n : ℚ) ≤ (r i : ℚ) := le_of_mul_le_mul_right h8 (hs i)
    exact_mod_cast this
  rw [hrange]
  exact ⟨hlbz, by omega⟩

/-- Completed real-space basis of the concrete scenario: one `2.0`-long vector
along x, completed with unit vectors. -/
def rvecsW : Fin 3 → Fin 3 → ℚ := ![![2, 0, 0], ![0, 1, 0], ![0, 0, 1]]

/-- Reciprocal basis of the concrete scenario. -/
def gvecsW : Fin 3 → Fin 3 → ℚ := ![![1/2, 0, 0], ![0, 1, 0], ![0, 0, 1]]

/-- Spacings of the concrete scenario. -/
def spacW : Fin 3 → ℚ := ![2, 1, 1]

/-- The displacement `delta = [1.5, 0, 0]` of the concrete scenario. -/
def deltaW : Fin 3 → ℚ := ![3/2, 0, 0]

/-- The qualifying translation of the concrete scenario: one step back along
axis 0 brings `delta` to `[-0.5, 0, 0]`, within `rcut = 0.6` of the origin. -/
def rW : Fin 3 → ℤ := ![-1, 0, 0]

/-- C3 witness: the spec's concrete scenario (`nvec = 1` cell with a
`2.0`-vector along x, `delta = [1.5,0,0]`, `rcut = 0.6`); the returned axis-0
range moreover covers both `0` and `1`. -/
theorem get_ranges_rcut_sound_witness :
    (∀ i, 0 < spacW i) ∧
    (∀ i, spacW i ^ 2 * dotQ (gvecsW i) (gvecsW i) = 1) ∧
    (∀ i j, dotQ (rvecsW j) (gvecsW i) = if i = j then 1 else 0) ∧
    (0 : ℚ) ≤ 3/5 ∧
    dotQ (addRvec rvecsW deltaW rW) (addRvec rvecsW deltaW rW) ≤ (3/5 : ℚ) ^ 2 ∧
    (∀ i, (rangesRcut gvecsW spacW deltaW (3/5) i).1 ≤ rW i ∧
      rW i < (rangesRcut gvecsW spacW deltaW (3/5) i).2) ∧
    (rangesRcut gvecsW spacW deltaW (3/5) 0).1 ≤ 0 ∧
    (1 : ℤ) < (rangesRcut gvecsW spacW deltaW (3/5) 0).2 := by
  have hsW : ∀ i, 0 < spacW i := by
    intro i
    fin_cases i <;> norm_num [spacW]
  have hsgW : ∀ i, spacW i ^ 2 * dotQ (gvecsW i) (gvecsW i) = 1 := by
    intro i
    fin_cases i <;>
      norm_num [spacW, gvecsW, dotQ, Fin.sum_univ_three,
        Matrix.cons_val_zero, Matrix.cons_val_one, Matrix.head_cons,
        Matrix.cons_val_two, Matrix.vecTail, Matrix.vecHead]
  have hdualW : ∀ i j, dotQ (rvecsW j) (gvecsW i) = if i = j then 1 else 0 := by
    intro i j
    fin_cases i <;> fin_cases j <;>
      norm_num [rvecsW, gvecsW, dotQ, Fin.sum_univ_three,
        Matrix.cons_val_zero, Matrix.cons_val_one, Matrix.head_cons,
        Matrix.cons_val_two, Matrix.vecTail, Matrix.vecHead] <;>
      rfl
  have hinW : dotQ (addRvec rvecsW deltaW rW) (addRvec rvecsW deltaW rW) ≤
      (3/5 : ℚ) ^ 2 := by
    norm_num [dotQ, addRvec, rvecsW, deltaW, rW, Fin.sum_univ_three,
      Matrix.cons_val_zero, Matrix.cons_val_one, Matrix.head_cons,
      Matrix.cons_val_two, Matrix.vecTail, Matrix.vecHead]
  have hdW : dotQ deltaW (gvecsW 0) = 3/4 := by
    norm_num [dotQ, deltaW, gvecsW, Fin.sum_univ_three,
      Matrix.cons_val_zero, Matrix.cons_val_one, Matrix.head_cons,
      Matrix.cons_val_two, Matrix.vecTail, Matrix.vecHead]
  have hceil : (⌈((3/5 : ℚ) + |dotQ deltaW (gvecsW 0) * spacW 0|) / spacW 0⌉ : ℤ) = 2 := by
    rw [hdW]
    have hsp : spacW 0 = 2 := rfl
    have habs32 : |(3/4 : ℚ) * 2| = 3/2 := by
      rw [abs_of_nonneg] <;> norm_num
    rw [hsp, habs32, Int.ceil_eq_iff]
    norm_num
  have hr0 : rangesRcut gvecsW spacW deltaW (3/5) 0 = (-2, 3) := by
    show (-(⌈((3/5 : ℚ) + |dotQ deltaW (gvecsW 0) * spacW 0|) / spacW 0⌉ : ℤ),
      (⌈((3/5 : ℚ) + |dotQ deltaW (gvecsW 0) * spacW 0|) / spacW 0⌉ : ℤ) + 1) = (-2, 3)
    rw [hceil]
    norm_num
  refine ⟨hsW, hsgW, hdualW, by norm_num, hinW,
    get_ranges_rcut_sound rvecsW gvecsW spacW deltaW (3/5) rW
      hsW hsgW hdualW (by norm_num) hinW,
    ?_, ?_⟩
  · rw [hr0]
    norm_num
  · rw [hr0]
    norm_num

/-- `rvecs[2,0]` of the triclinic construction in `from_parameters`:
`u_a / rvecs[0,0]` with `u_a = lengths[0]*lengths[2]*cos(angles[1])`. -/
noncomputable def cxVal (l0 l2 a1 : ℝ) : ℝ := l0 * l2 * Real.cos a1 / l0

/-- `rvecs[2,1]` of the triclinic construction in `from_parameters`:
`(u_b - rvecs[1,0]*rvecs[2,0]) / rvecs[1,1]` with
`u_b = lengths[1]*lengths[2]*cos(angles[0])`. -/
noncomputable def cyVal (l0 l1 l2 a0 a1 a2 : ℝ) : ℝ :=
  (l1 * l2 * Real.cos a0 - Real.cos a2 * l1 * cxVal l0 l2 a1) / (Real.sin a2 * l1)

/-- `u_c = lengths[2]**2 - rvecs[2,0]**2 - rvecs[2,1]**2` of
`from_parameters`: the squared out-of-plane component of the third vector. -/
noncomputable def ucVal (l0 l1 l2 a0 a1 a2 : ℝ) : ℝ :=
  l2 ^ 2 - cxVal l0 l2 a1 ^ 2 - cyVal l0 l1 l2 a0 a1 a2 ^ 2

open Classical in
/-- `Cell.from_parameters` of `cext.pyx`, up to the final `cls(rvecs)` call
(which stores exactly these rows, by C1): the validation chain and the
construction of the lattice-vector rows.  `np.pi` is modelled as `Real.pi`,
`np.cos`/`np.sin`/`np.sqrt` as their real counterparts. -/
noncomputable def fromParametersRvecs (lengths angles : List ℝ) :
    Except CellErr (List (Fin 3 → ℝ)) :=
  if lengths.length = 0 ∧ angles.length ≠ 0 then .error .badCounts
  else if lengths.length = 1 ∧ angles.length ≠ 0 then .error .badCounts
  else if lengths.length = 2 ∧ angles.length ≠ 1 then .error .badCounts
  else if lengths.length = 3 ∧ angles.length ≠ 3 then .error .badCounts
  else if 3 < lengths.length then .error .tooManyLengths
  else if ∃ l ∈ lengths, l ≤ 0 then .error .badLength
  else if ∃ a ∈ angles, a ≤ 0 ∨ Real.pi ≤ a then .error .badAngle
  else
    match lengths, angles with
    | [], _ => .ok []
    | [l0], _ => .ok [![l0, 0, 0]]
    | [l0, l1], a :: _ =>
        .ok [![l0, 0, 0], ![Real.cos a * l1, Real.sin a * l1, 0]]
    | [l0, l1, l2], [a0, a1, a2] =>
        if ucVal l0 l1 l2 a0 a1 a2 < 0 then .error .notUnitCell
        else .ok [![l0, 0, 0], ![Real.cos a2 * l1, Real.sin a2 * l1, 0],
          ![cxVal l0 l2 a1, cyVal l0 l1 l2 a0 a1 a2,
            Real.sqrt (ucVal l0 l1 l2 a0 a1 a2)]]
    | _, _ => .error .badCounts

/-- Dot product of two 3-vectors of reals. -/
def dotR (u v : Fin 3 → ℝ) : ℝ := ∑ i, u i * v i

/-- The generalized volume of a parametric 3-vector cell: the absolute
determinant of its three rows. -/
def vol3 : List (Fin 3 → ℝ) → ℝ
  | [a, b, c] => |(Matrix.of ![a, b, c]).det|
  | _ => 0

/-- Evaluation of `from_parameters` on a validation-passing two-length
input. -/
theorem fromParametersRvecs_two
    (l0 l1 a : ℝ) (hl0 : 0 < l0) (hl1 : 0 < l1) (ha : 0 < a ∧ a < Real.pi) :
    fromParametersRvecs [l0, l1] [a] =
      .ok [![l0, 0, 0], ![Real.cos a * l1, Real.sin a * l1, 0]] := by
  have hL : ¬ ∃ l ∈ [l0, l1], l ≤ 0 := by
    rintro ⟨l, hm, hle⟩
    simp only [List.mem_cons, List.not_mem_nil, or_false] at hm
    rcases hm with rfl | rfl <;> linarith
  have hA : ¬ ∃ b ∈ [a], b ≤ 0 ∨ Real.pi ≤ b := by
    rintro ⟨b, hm, hcase⟩
    simp only [List.mem_cons, List.not_mem_nil, or_false] at hm
    rcases hm with rfl
    rcases hcase with h | h <;> linarith [ha.1, ha.2]
  unfold fromParametersRvecs
  rw [if_neg (by simp), if_neg (by simp), if_neg (by simp), if_neg (by simp),
    if_neg (by simp), if_neg hL, if_neg hA]

/-- Evaluation of `from_parameters` on a validation-passing three-length
input. -/
theorem fromParametersRvecs_three
    (l0 l1 l2 a0 a1 a2 : ℝ)
    (hl0 : 0 < l0) (hl1 : 0 < l1) (hl2 : 0 < l2)
    (ha0 : 0 < a0 ∧ a0 < Real.pi) (ha1 : 0 < a1 ∧ a1 < Real.pi)
    (ha2 : 0 < a2 ∧ a2 < Real.pi) :
    fromParametersRvecs [l0, l1, l2] [a0, a1, a2] =
      if ucVal l0 l1 l2 a0 a1 a2 < 0 then .error .notUnitCell
      else .ok [![l0, 0, 0], ![Real.cos a2 * l1, Real.sin a2 * l1, 0],
        ![cxVal l0 l2 a1, cyVal l0 l1 l2 a0 a1 a2,
          Real.sqrt (ucVal l0 l1 l2 a0 a1 a2)]] := by
  have hL : ¬ ∃ l ∈ [l0, l1, l2], l ≤ 0 := by
    rintro ⟨l, hm, hle⟩
    simp only [List.mem_cons, List.not_mem_nil, or_false] at hm
    rcases hm with rfl | rfl | rfl <;> linarith
  have hA : ¬ ∃ b ∈ [a0, a1, a2], b ≤ 0 ∨ Real.pi ≤ b := by
    rintro ⟨b, hm, hcase⟩
    simp only [List.mem_cons, List.not_mem_nil, or_false] at hm
    rcases hm with rfl | rfl | rfl <;> rcases hcase with h | h <;>
      linarith [ha0.1, ha0.2, ha1.1, ha1.2, ha2.1, ha2.2]
  unfold fromParametersRvecs
  rw [if_neg (by simp), if_neg (by simp), if_neg (by simp), if_neg (by simp),
    if_neg (by simp), if_neg hL, if_neg hA]

/-- C6: `from_parameters` fails with an `InvalidArgument`-class error (never
building any lattice rows) whenever the length/angle counts do not match one
of the four supported shapes (0/0, 1/0, 2/1, 3/3), or some length is `≤ 0`,
or some angle lies outside the open interval `(0, π)`. -/
theorem from_parameters_invalid_argument
    (lengths angles : List ℝ)
    (h : (¬ ((lengths.length = 0 ∧ angles.length = 0) ∨
          (lengths.length = 1 ∧ angles.length = 0) ∨
          (lengths.length = 2 ∧ angles.length = 1) ∨
          (lengths.length = 3 ∧ angles.length = 3))) ∨
        (∃ l ∈ lengths, l ≤ 0) ∨ (∃ a ∈ angles, a ≤ 0 ∨ Real.pi ≤ a)) :
    ∃ e, fromParametersRvecs lengths angles = .error e ∧ e.isInvalidArg := by
  unfold fromParametersRvecs
  split_ifs with h1 h2 h3 h4 h5 h6 h7
  · exact ⟨.badCounts, rfl, trivial⟩
  · exact ⟨.badCounts, rfl, trivial⟩
  · exact ⟨.badCounts, rfl, trivial⟩
  · exact ⟨.badCounts, rfl, trivial⟩
  · exact ⟨.tooManyLengths, rfl, trivial⟩
  · exact ⟨.badLength, rfl, trivial⟩
  · exact ⟨.badAngle, rfl, trivial⟩
  · exfalso
    rcases h with hc | hl | ha
    · apply hc
      push_neg at h1 h2 h3 h4 h5
      have hlen : lengths.length = 0 ∨ lengths.length = 1 ∨
          lengths.length = 2 ∨ lengths.length = 3 := by omega
      rcases hlen with he | he | he | he
      · exact Or.inl ⟨he, h1 he⟩
      · exact Or.inr (Or.inl ⟨he, h2 he⟩)
      · exact Or.inr (Or.inr (Or.inl ⟨he, h3 he⟩))
      · exact Or.inr (Or.inr (Or.inr ⟨he, h4 he⟩))
    · exact h6 hl
    · exact h7 ha

/-- C6 witness: a single nonpositive length. -/
theorem from_parameters_invalid_argument_witness :
    (∃ l ∈ [(-1 : ℝ)], l ≤ 0) ∧
      ∃ e, fromParametersRvecs [(-1 : ℝ)] ([] : List ℝ) = .error e ∧
        e.isInvalidArg :=
  ⟨⟨-1, by simp, by norm_num⟩,
    from_parameters_invalid_argument [(-1 : ℝ)] []
      (Or.inr (Or.inl ⟨-1, by simp, by norm_num⟩))⟩

/-- C5 amended: for three strictly positive lengths and three angles in
`(0, π)`, `from_parameters` raises the geometry error exactly when the solved
squared out-of-plane component `u_c` is strictly negative; in particular a
zero-volume cell with `u_c = 0` is built without error (see the
counterexample), so zero volume alone is not a geometry error. -/
theorem from_parameters_geometry_error_iff
    (l0 l1 l2 a0 a1 a2 : ℝ)
    (hl0 : 0 < l0) (hl1 : 0 < l1) (hl2 : 0 < l2)
    (ha0 : 0 < a0 ∧ a0 < Real.pi) (ha1 : 0 < a1 ∧ a1 < Real.pi)
    (ha2 : 0 < a2 ∧ a2 < Real.pi) :
    fromParametersRvecs [l0, l1, l2] [a0, a1, a2] = .error .notUnitCell ↔
      ucVal l0 l1 l2 a0 a1 a2 < 0 := by
  rw [fromParametersRvecs_three l0 l1 l2 a0 a1 a2 hl0 hl1 hl2 ha0 ha1 ha2]
  constructor
  · intro h
    by_contra hnc
    rw [if_neg hnc] at h
    exact absurd h (by simp)
  · intro h
    rw [if_pos h]

/-- C5 witness: the right-angle unit cube parameters, for which `u_c = 1`. -/
theorem from_parameters_geometry_error_iff_witness :
    fromParametersRvecs [(1 : ℝ), 1, 1] [Real.pi/2, Real.pi/2, Real.pi/2] =
        .error .notUnitCell ↔
      ucVal 1 1 1 (Real.pi/2) (Real.pi/2) (Real.pi/2) < 0 :=
  from_parameters_geometry_error_iff 1 1 1 (Real.pi/2) (Real.pi/2) (Real.pi/2)
    (by norm_num) (by norm_num) (by norm_num)
    ⟨by linarith [Real.pi_pos], by linarith [Real.pi_pos]⟩
    ⟨by linarith [Real.pi_pos], by linarith [Real.pi_pos]⟩
    ⟨by linarith [Real.pi_pos], by linarith [Real.pi_pos]⟩

/-- The `rvecs[2,0]` entry of the C5 counterexample. -/
theorem cxVal_cex : cxVal 1 1 (Real.pi/4) = Real.sqrt 2 / 2 := by
  unfold cxVal
  rw [Real.cos_pi_div_four]
  norm_num

/-- The `rvecs[2,1]` entry of the C5 counterexample. -/
theorem cyVal_cex :
    cyVal 1 1 1 (Real.pi/4) (Real.pi/4) (Real.pi/2) = Real.sqrt 2 / 2 := by
  unfold cyVal
  rw [cxVal_cex, Real.cos_pi_div_four, Real.cos_pi_div_two, Real.sin_pi_div_two]
  norm_num

/-- The solved `u_c` of the C5 counterexample is exactly zero. -/
theorem ucVal_cex : ucVal 1 1 1 (Real.pi/4) (Real.pi/4) (Real.pi/2) = 0 := by
  unfold ucVal
  rw [cxVal_cex, cyVal_cex]
  have h2 : (Real.sqrt 2 / 2) ^ 2 = 1 / 2 := by
    rw [div_pow, Real.sq_sqrt] <;> norm_num
  rw [h2]
  norm_num

/-- C5 counterexample: lengths `(1,1,1)` with angles `(π/4, π/4, π/2)` pass
validation, solve to `u_c = 0`, and `from_parameters` builds a zero-volume
cell (its third vector lies in the xy-plane) without raising any error — so
the claim that a zero-volume cell is a degenerate-geometry error in parametric
construction is false; only strictly negative `u_c` raises. -/
theorem from_parameters_zero_volume_counterexample :
    fromParametersRvecs [(1 : ℝ), 1, 1] [Real.pi/4, Real.pi/4, Real.pi/2] =
      .ok [![1, 0, 0], ![0, 1, 0], ![Real.sqrt 2 / 2, Real.sqrt 2 / 2, 0]] ∧
    vol3 [![1, 0, 0], ![0, 1, 0], ![Real.sqrt 2 / 2, Real.sqrt 2 / 2, 0]] = 0 := by
  constructor
  · rw [fromParametersRvecs_three 1 1 1 (Real.pi/4) (Real.pi/4) (Real.pi/2)
      (by norm_num) (by norm_num) (by norm_num)
      ⟨by linarith [Real.pi_pos], by linarith [Real.pi_pos]⟩
      ⟨by linarith [Real.pi_pos], by linarith [Real.pi_pos]⟩
      ⟨by linarith [Real.pi_pos], by linarith [Real.pi_pos]⟩]
    rw [if_neg (by rw [ucVal_cex]; norm_num)]
    rw [cxVal_cex, cyVal_cex, ucVal_cex, Real.sqrt_zero,
      Real.cos_pi_div_two, Real.sin_pi_div_two]
    norm_num
  · simp only [vol3]
    rw [Matrix.det_fin_three]
    simp only [Matrix.of_apply, Matrix.cons_val_zero, Matrix.cons_val_one,
      Matrix.head_cons, Matrix.cons_val_two, Matrix.vecTail, Matrix.vecHead,
      Function.comp_apply, Fin.succ_zero_eq_one]
    norm_num

/-- C7: on every validation-passing parametric input, `from_parameters`
builds the lattice as specified.  Two-length case: vector 1 is
`[l0, 0, 0]` and vector 2 is `(cos(angle)·l1, sin(angle)·l1, 0)` with the
given angle.  Three-length case: vector 1 is `[l0, 0, 0]`, vector 2 uses the
angle `angles[2]` between vectors 1 and 2, and vector 3 is solved by
back-substitution from the pairwise dot products: `a·c = l0·l2·cos(angles[1])`,
`b·c = l1·l2·cos(angles[0])`, `c·c = l2²`, with non-negative out-of-plane
component (`u_c ≥ 0` is the non-error case; `u_c < 0` raises, see C5). -/
theorem from_parameters_builds_lattice
    (l0 l1 l2 a0 a1 a2 : ℝ)
    (hl0 : 0 < l0) (hl1 : 0 < l1) (hl2 : 0 < l2)
    (ha0 : 0 < a0 ∧ a0 < Real.pi) (ha1 : 0 < a1 ∧ a1 < Real.pi)
    (ha2 : 0 < a2 ∧ a2 < Real.pi)
    (huc : 0 ≤ ucVal l0 l1 l2 a0 a1 a2) :
    fromParametersRvecs [l0, l1] [a0] =
      .ok [![l0, 0, 0], ![Real.cos a0 * l1, Real.sin a0 * l1, 0]] ∧
    ∃ c : Fin 3 → ℝ,
      fromParametersRvecs [l0, l1, l2] [a0, a1, a2] =
        .ok [![l0, 0, 0], ![Real.cos a2 * l1, Real.sin a2 * l1, 0], c] ∧
      dotR ![l0, 0, 0] c = l0 * l2 * Real.cos a1 ∧
      dotR ![Real.cos a2 * l1, Real.sin a2 * l1, 0] c = l1 * l2 * Real.cos a0 ∧
      dotR c c = l2 ^ 2 ∧
      0 ≤ c 2 := by
  have hl0ne : l0 ≠ 0 := ne_of_gt hl0
  have hl1ne : l1 ≠ 0 := ne_of_gt hl1
  have hsin2 : Real.sin a2 ≠ 0 :=
    ne_of_gt (Real.sin_pos_of_pos_of_lt_pi ha2.1 ha2.2)
  refine ⟨fromParametersRvecs_two l0 l1 a0 hl0 hl1 ha0,
    ![cxVal l0 l2 a1, cyVal l0 l1 l2 a0 a1 a2,
      Real.sqrt (ucVal l0 l1 l2 a0 a1 a2)], ?_, ?_, ?_, ?_, ?_⟩
  · rw [fromParametersRvecs_three l0 l1 l2 a0 a1 a2 hl0 hl1 hl2 ha0 ha1 ha2,
      if_neg (not_lt.mpr huc)]
  · simp only [dotR, Fin.sum_univ_three, Matrix.cons_val_zero,
      Matrix.cons_val_one, Matrix.head_cons, Matrix.cons_val_two,
      Matrix.vecTail, Matrix.vecHead]
    unfold cxVal
    field_simp
  · simp only [dotR, Fin.sum_univ_three, Matrix.cons_val_zero,
      Matrix.cons_val_one, Matrix.head_cons, Matrix.cons_val_two,
      Matrix.vecTail, Matrix.vecHead]
    unfold cyVal
    field_simp
  · simp only [dotR, Fin.sum_univ_three, Matrix.cons_val_zero,
      Matrix.cons_val_one, Matrix.head_cons, Matrix.cons_val_two,
      Matrix.vecTail, Matrix.vecHead, Function.comp_apply, Fin.succ_zero_eq_one]
    have hsq : Real.sqrt (ucVal l0 l1 l2 a0 a1 a2) *
        Real.sqrt (ucVal l0 l1 l2 a0 a1 a2) = ucVal l0 l1 l2 a0 a1 a2 :=
      Real.mul_self_sqrt huc
    rw [hsq]
    unfold ucVal
    ring
  · simp only [Matrix.cons_val_two, Matrix.vecTail, Matrix.vecHead,
      Function.comp_apply, Fin.succ_zero_eq_one, Matrix.cons_val_one,
      Matrix.head_cons]
    exact Real.sqrt_nonneg _

/-- The right-angle unit cube has `u_c = 1`. -/
theorem ucVal_cube : ucVal 1 1 1 (Real.pi/2) (Real.pi/2) (Real.pi/2) = 1 := by
  unfold ucVal cyVal cxVal
  rw [Real.cos_pi_div_two, Real.sin_pi_div_two]
  norm_num

/-- C7 witness: unit lengths and right angles. -/
theorem from_parameters_builds_lattice_witness :
    (0 ≤ ucVal 1 1 1 (Real.pi/2) (Real.pi/2) (Real.pi/2)) ∧
    (fromParametersRvecs [(1 : ℝ), 1] [Real.pi/2] =
      .ok [![1, 0, 0],
        ![Real.cos (Real.pi/2) * 1, Real.sin (Real.pi/2) * 1, 0]] ∧
    ∃ c : Fin 3 → ℝ,
      fromParametersRvecs [(1 : ℝ), 1, 1] [Real.pi/2, Real.pi/2, Real.pi/2] =
        .ok [![1, 0, 0],
          ![Real.cos (Real.pi/2) * 1, Real.sin (Real.pi/2) * 1, 0], c] ∧
      dotR ![1, 0, 0] c = 1 * 1 * Real.cos (Real.pi/2) ∧
      dotR ![Real.cos (Real.pi/2) * 1, Real.sin (Real.pi/2) * 1, 0] c =
        1 * 1 * Real.cos (Real.pi/2) ∧
      dotR c c = (1 : ℝ) ^ 2 ∧
      0 ≤ c 2) :=
  ⟨by rw [ucVal_cube]; norm_num,
    from_parameters_builds_lattice 1 1 1 (Real.pi/2) (Real.pi/2) (Real.pi/2)
      (by norm_num) (by norm_num) (by norm_num)
      ⟨by linarith [Real.pi_pos], by linarith [Real.pi_pos]⟩
      ⟨by linarith [Real.pi_pos], by linarith [Real.pi_pos]⟩
      ⟨by linarith [Real.pi_pos], by linarith [Real.pi_pos]⟩
      (by rw [ucVal_cube]; norm_num)⟩

/-- Modelled from the spec: the fill loop of `fill_radial_polynomials`
(moments.cpp, not under src).  Starting from the current power `cur`, each
subsequent slot holds the previous slot times the radius `r` — successive
powers of the radius. -/
def radLoop (r : ℚ) : ℚ → ℕ → List ℚ
  | _, 0 => []
  | cur, n + 1 => (cur * r) :: radLoop r (cur * r) n

/-- `fill_radial_polynomials` of `cext.pyx`: the binding raises when
`output.shape[0] < lmax`, otherwise the kernel (modelled from the spec: it
fills successive powers of the leading element `output[0]` up to `lmax`)
rewrites the buffer; slots from index `lmax` on are untouched. -/
def fillRadialPolynomials (output : List ℚ) (lmax : ℕ) :
    Except CellErr (List ℚ) :=
  if output.length < lmax then .error .bufferTooSmall
  else
    match output with
    | [] => .ok []
    | r :: rest => .ok (r :: (radLoop r r (lmax - 1) ++ rest.drop (lmax - 1)))

/-- The fill loop writes exactly `n` slots. -/
theorem radLoop_length (r : ℚ) : ∀ n cur, (radLoop r cur n).length = n := by
  intro n
  induction n with
  | zero => intro cur; rfl
  | succ n ih =>
    intro cur
    simp [radLoop, ih]

/-- Slot `i` of the fill loop holds `cur * r^(i+1)`. -/
theorem radLoop_getD (r : ℚ) : ∀ n cur i, i < n →
    (radLoop r cur n).getD i 0 = cur * r ^ (i + 1) := by
  intro n
  induction n with
  | zero => intro cur i hi; omega
  | succ n ih =>
    intro cur i hi
    match i with
    | 0 => simp [radLoop, List.getD]
    | j + 1 =>
      have hj : j < n := by omega
      calc (radLoop r cur (n + 1)).getD (j + 1) 0
          = (radLoop r (cur * r) n).getD j 0 := by
            simp [radLoop, List.getD]
        _ = cur * r * r ^ (j + 1) := ih (cur * r) j hj
        _ = cur * r ^ (j + 1 + 1) := by ring

/-- `getD` through `drop`: reading slot `j` of a dropped prefix reads slot
`i + j` of the original buffer. -/
theorem getD_drop_shift (l : List ℚ) (i j : ℕ) (d : ℚ) :
    (l.drop i).getD j d = l.getD (i + j) d := by
  rw [List.getD_eq_getD_get?, List.getD_eq_getD_get?, List.get?_eq_getElem?,
    List.get?_eq_getElem?, List.getElem?_drop]

/-- C9: `fill_radial_polynomials` succeeds on every buffer of length at least
`lmax` and fills slot `i` (for `i < lmax`) with the `(i+1)`-st power of the
leading element (the seed radius, slot 0 staying the radius itself), leaving
the length and every slot from `lmax` on unchanged.  For seed `2.0` and
`lmax = 3` this yields the three slots `[2, 4, 8]` (see the witness). -/
theorem fill_radial_polynomials_powers
    (output : List ℚ) (lmax : ℕ) (h : lmax ≤ output.length) :
    ∃ out', fillRadialPolynomials output lmax = .ok out' ∧
      out'.length = output.length ∧
      (∀ i, i < lmax → out'.getD i 0 = (output.getD 0 0) ^ (i + 1)) ∧
      (∀ i, lmax ≤ i → out'.getD i 0 = output.getD i 0) := by
  have hnl : ¬ output.length < lmax := not_lt.mpr h
  match output with
  | [] =>
    have h0 : lmax = 0 := by simpa using h
    subst h0
    refine ⟨[], rfl, rfl, ?_, ?_⟩
    · intro i hi
      omega
    · intro i _
      rfl
  | r :: rest =>
    have hdroplen : lmax - 1 ≤ rest.length := by
      simp only [List.length_cons] at h
      omega
    refine ⟨r :: (radLoop r r (lmax - 1) ++ rest.drop (lmax - 1)), ?_, ?_, ?_, ?_⟩
    · simp only [fillRadialPolynomials]
      rw [if_neg hnl]
    · simp only [List.length_cons, List.length_append, radLoop_length,
        List.length_drop]
      omega
    · intro i hi
      match i with
      | 0 =>
        simp [List.getD, pow_one]
      | j + 1 =>
        have hj : j < lmax - 1 := by omega
        have hstep : (r :: (radLoop r r (lmax - 1) ++ rest.drop (lmax - 1))).getD (j + 1) 0
            = (radLoop r r (lmax - 1) ++ rest.drop (lmax - 1)).getD j 0 := by
          simp [List.getD]
        rw [hstep, List.getD_append _ _ _ _ (by rw [radLoop_length]; exact hj),
          radLoop_getD r (lmax - 1) r j hj]
        have hr0 : (r :: rest).getD 0 0 = r := rfl
        rw [hr0]
        ring
    · intro i hlei
      match lmax, i with
      | 0, i =>
        have hL0 : radLoop r r (0 - 1) = [] := rfl
        simp [hL0]
      | lmax + 1, 0 => omega
      | lmax + 1, j + 1 =>
        have hstep : (r :: (radLoop r r (lmax + 1 - 1) ++ rest.drop (lmax + 1 - 1))).getD (j + 1) 0
            = (radLoop r r lmax ++ rest.drop lmax).getD j 0 := by
          simp [List.getD]
        rw [hstep, List.getD_append_right _ _ _ _ (by rw [radLoop_length]; omega),
          radLoop_length, getD_drop_shift]
        have harith : lmax + (j - lmax) = j := by omega
        rw [harith]
        rfl

/-- C9 witness: the spec's concrete scenario — seed radius `2.0`, `lmax = 3`:
all three slots end up `[2, 4, 8]`, successive powers starting at power 1. -/
theorem fill_radial_polynomials_powers_witness :
    (3 ≤ ([2, 0, 0] : List ℚ).length) ∧
    (∃ out', fillRadialPolynomials [2, 0, 0] 3 = .ok out' ∧
      out'.length = ([2, 0, 0] : List ℚ).length ∧
      (∀ i, i < 3 → out'.getD i 0 = (([2, 0, 0] : List ℚ).getD 0 0) ^ (i + 1)) ∧
      (∀ i, 3 ≤ i → out'.getD i 0 = ([2, 0, 0] : List ℚ).getD i 0)) ∧
    fillRadialPolynomials [2, 0, 0] 3 = .ok [2, 4, 8] :=
  ⟨by norm_num, fill_radial_polynomials_powers [2, 0, 0] 3 (by norm_num),
    by norm_num [fillRadialPolynomials, radLoop]⟩

/-- A numpy result array: its contents plus the numpy writeable flag
(`np.zeros`/ufunc results start writable; `setflags(write=False)` clears the
flag). -/
structure NArr (α : Type) where
  data : List α
  writable : Bool

/-- The `rvecs` property getter of `cext.pyx`: a fresh array is allocated,
the stored rows are copied into it and its write flag is cleared.  The body
reads but never assigns `self`, so the cell state is returned unchanged. -/
def rvecsQuery (c : CellState) : CellState × NArr (Fin 3 → ℚ) :=
  (c, ⟨c.rvecsOut, false⟩)

/-- The `gvecs` property getter of `cext.pyx`. -/
def gvecsQuery (c : CellState) : CellState × NArr (Fin 3 → ℚ) :=
  (c, ⟨c.gvecsOut, false⟩)

/-- Euclidean norm of a stored row (the per-axis vector length; the C++
`copy_rlengths`/`copy_glengths` are not under src and are modelled from the
spec's "per-axis real/reciprocal vector lengths"). -/
noncomputable def normRow (v : Fin 3 → ℚ) : ℝ := Real.sqrt ((dotQ v v : ℚ) : ℝ)

/-- The `rlengths` property getter of `cext.pyx`. -/
noncomputable def rlengthsQuery (c : CellState) : CellState × NArr ℝ :=
  (c, ⟨c.rvecsOut.map normRow, false⟩)

/-- The `glengths` property getter of `cext.pyx`. -/
noncomputable def glengthsQuery (c : CellState) : CellState × NArr ℝ :=
  (c, ⟨c.gvecsOut.map normRow, false⟩)

/-- The `rspacings` property getter of `cext.pyx`; modelled from the spec:
the spacing along real axis `i` is the inverse length of the paired
reciprocal vector. -/
noncomputable def rspacingsQuery (c : CellState) : CellState × NArr ℝ :=
  (c, ⟨c.gvecsOut.map (fun g => 1 / normRow g), false⟩)

/-- The `gspacings` property getter of `cext.pyx`; dually, the inverse length
of the paired real vector. -/
noncomputable def gspacingsQuery (c : CellState) : CellState × NArr ℝ :=
  (c, ⟨c.rvecsOut.map (fun v => 1 / normRow v), false⟩)

/-- One entry of the normalized Gram matrix `tmp` of the `parameters` getter:
the dot product of two rows divided by both lengths. -/
noncomputable def normCos (u v : Fin 3 → ℚ) : ℝ :=
  ((dotQ u v : ℚ) : ℝ) / (normRow u * normRow v)

/-- The `parameters` property getter of `cext.pyx`: the (non-writable)
`rlengths` array paired with the angles `np.arccos(np.clip(cosines, -1, 1))`.
The `arccos` ufunc allocates a fresh result on which `setflags` is never
called, so the angles array keeps its write flag set. -/
noncomputable def parametersQuery (c : CellState) :
    CellState × (NArr ℝ × NArr ℝ) :=
  let lengths := (rlengthsQuery c).2
  let rows := c.rvecsOut
  let cosines : List ℝ :=
    if rows.length < 2 then []
    else if rows.length = 2 then
      [normCos (rows.getD 0 (fun _ => 0)) (rows.getD 1 (fun _ => 0))]
    else
      [normCos (rows.getD 1 (fun _ => 0)) (rows.getD 2 (fun _ => 0)),
       normCos (rows.getD 2 (fun _ => 0)) (rows.getD 0 (fun _ => 0)),
       normCos (rows.getD 0 (fun _ => 0)) (rows.getD 1 (fun _ => 0))]
  let angles := cosines.map fun t => Real.arccos (max (-1) (min 1 t))
  (c, (lengths, ⟨angles, true⟩))

/-- C10 amended: every read-only query leaves the cell state unchanged and
returns a freshly computed value; the six array getters mark their result
non-writable; the `parameters` property returns the non-writable lengths
array together with a writable angles array (no `setflags(write=False)` is
applied to the `np.arccos` result). -/
theorem cell_queries_readonly_frame (c : CellState) :
    (rvecsQuery c).1 = c ∧ (rvecsQuery c).2.writable = false ∧
    (gvecsQuery c).1 = c ∧ (gvecsQuery c).2.writable = false ∧
    (rlengthsQuery c).1 = c ∧ (rlengthsQuery c).2.writable = false ∧
    (glengthsQuery c).1 = c ∧ (glengthsQuery c).2.writable = false ∧
    (rspacingsQuery c).1 = c ∧ (rspacingsQuery c).2.writable = false ∧
    (gspacingsQuery c).1 = c ∧ (gspacingsQuery c).2.writable = false ∧
    (parametersQuery c).1 = c ∧ (parametersQuery c).2.1.writable = false ∧
    (parametersQuery c).2.2.writable = true :=
  ⟨rfl, rfl, rfl, rfl, rfl, rfl, rfl, rfl, rfl, rfl, rfl, rfl, rfl, rfl, rfl⟩

/-- C10 counterexample: the claim says every listed query returns its arrays
marked non-writable, but the angles array of the `parameters` property keeps
its write flag. -/
theorem cell_parameters_angles_writable_counterexample :
    (parametersQuery cellTriv).2.2.writable = true := rfl
